import Mathlib

/-
Shallow embedding of the per-channel Markov brain of the twitchbot
repository (package `markov`, file internal/database/database.go in this
source drop, plus the brain `Manager` in cmd/launcher/icon_windows.go and
the configuration capability in internal/config).

The SQLite `transitions` table is modelled as a list of rows; the hidden
random state (`math/rand` and SQLite `ORDER BY RANDOM()`) is modelled by
explicit index/stream arguments.
-/

namespace ENUF

/-! ### Go string helpers used by the brain -/

/-- Whitespace test of Go `unicode.IsSpace` (used by `strings.Fields`). -/
def goIsSpace (c : Char) : Bool :=
  c = ' ' || c = '\t' || c = '\n' || c.toNat = 11 || c.toNat = 12 || c = '\r' ||
  c.toNat = 0x85 || c.toNat = 0xA0 || c.toNat = 0x1680 ||
  (0x2000 ≤ c.toNat && c.toNat ≤ 0x200A) ||
  c.toNat = 0x2028 || c.toNat = 0x2029 || c.toNat = 0x202F ||
  c.toNat = 0x205F || c.toNat = 0x3000

/-- Word splitting of Go `strings.Fields`, fuelled so that the
definition is structurally recursive (the fuel is always at least the
length of the list, so the zero-fuel branch is never reached). -/
def fieldsCharsFuel : Nat → List Char → List (List Char)
  | 0, _ => []
  | _ + 1, [] => []
  | fuel + 1, c :: cs =>
    if goIsSpace c then fieldsCharsFuel fuel cs
    else (c :: (cs.takeWhile fun d => !goIsSpace d)) ::
      fieldsCharsFuel fuel (cs.dropWhile fun d => !goIsSpace d)

/-- Word splitting of Go `strings.Fields`: maximal runs of non-space
characters, with any run of spaces as separator. -/
def fieldsChars (l : List Char) : List (List Char) := fieldsCharsFuel l.length l

/-- Go `strings.Fields` on `String`. -/
def fields (s : String) : List String := (fieldsChars s.toList).map String.mk

/-- Character lowering of Go `strings.ToLower`, modelled on the ASCII
range (every string the claims touch is ASCII). -/
def goToLower (s : String) : String := String.mk (s.toList.map Char.toLower)

/-- Does `l` begin with `pre`? (Go `strings.HasPrefix` et al.) -/
def beginsWithChars : List Char → List Char → Bool
  | [], _ => true
  | _ :: _, [] => false
  | a :: as, b :: bs => a == b && beginsWithChars as bs

/-- Substring containment, Go `strings.Contains`. -/
def containsChars : List Char → List Char → Bool
  | [], needle => needle.isEmpty
  | c :: t, needle => beginsWithChars needle (c :: t) || containsChars t needle

/-- Go `strings.Contains` on `String`. -/
def goContains (hay needle : String) : Bool := containsChars hay.toList needle.toList

/-- Go `strings.HasPrefix` on `String`. -/
def goStartsWith (s pre : String) : Bool := beginsWithChars pre.toList s.toList

/-- Go `strings.EqualFold`, modelled as equality after lowering. -/
def goEqualFold (a b : String) : Bool := goToLower a == goToLower b

/-- Join with single spaces, Go `strings.Join(toks, " ")`. -/
def joinSpaceChars : List (List Char) → List Char
  | [] => []
  | [w] => w
  | w :: w2 :: ws => w ++ ' ' :: joinSpaceChars (w2 :: ws)

/-- `strings.Join(toks, " ")` on `String`. -/
def joinSpace (toks : List String) : String :=
  String.mk (joinSpaceChars (toks.map String.toList))

/-! ### Admission filter (pure predicates of the `markov` package) -/

/-- `isEmoji` from markov: the fixed emoji/symbol code point ranges. -/
def isEmoji (r : Char) : Bool :=
  (0x1F300 ≤ r.toNat && r.toNat ≤ 0x1F9FF) ||
  (0x2600 ≤ r.toNat && r.toNat ≤ 0x26FF) ||
  (0x2700 ≤ r.toNat && r.toNat ≤ 0x27BF) ||
  (0x1F600 ≤ r.toNat && r.toNat ≤ 0x1F64F) ||
  (0x1F680 ≤ r.toNat && r.toNat ≤ 0x1F6FF) ||
  (0x1F1E0 ≤ r.toNat && r.toNat ≤ 0x1F1FF) ||
  (0x231A ≤ r.toNat && r.toNat ≤ 0x231B) ||
  (0x23E9 ≤ r.toNat && r.toNat ≤ 0x23F3) ||
  (0x25AA ≤ r.toNat && r.toNat ≤ 0x25AB) ||
  (0x25B6 ≤ r.toNat && r.toNat ≤ 0x25C0) ||
  (0x25FB ≤ r.toNat && r.toNat ≤ 0x25FE) ||
  (0x2614 ≤ r.toNat && r.toNat ≤ 0x2615) ||
  (0x2648 ≤ r.toNat && r.toNat ≤ 0x2653) ||
  r.toNat = 0x267F ||
  (0x2934 ≤ r.toNat && r.toNat ≤ 0x2935) ||
  (0x2B05 ≤ r.toNat && r.toNat ≤ 0x2B07) ||
  (0x2B1B ≤ r.toNat && r.toNat ≤ 0x2B1C) ||
  r.toNat = 0x2B50 || r.toNat = 0x2B55 || r.toNat = 0x3030 ||
  r.toNat = 0x303D ||
  (0x3297 ≤ r.toNat && r.toNat ≤ 0x3299) ||
  r.toNat = 0xFE0F || r.toNat = 0x200D

/-- `isMostlyEnglish` from markov: every character is ASCII or emoji. -/
def isMostlyEnglish (text : String) : Bool :=
  text.toList.all fun r => !(127 < r.toNat && !isEmoji r)

/-- The fixed URL/TLD substring list of `containsLink`. -/
def linkPatterns : List String :=
  ["http://", "https://", "www.", ".com", ".org", ".net", ".tv", ".gg",
   ".io", ".co", ".me", ".be", ".ru", ".xyz", ".info", ".link", ".click",
   ".site", ".online", ".top", ".ly", ".gl", ".to", ".live", ".stream",
   ".uk", ".de", ".fr", ".shop", ".store"]

/-- `containsLink` from markov: case-insensitive substring match against
the fixed pattern list. -/
def containsLink (text : String) : Bool :=
  let lower := goToLower text
  linkPatterns.any fun pattern => goContains lower pattern

/-- `containsBlacklistedWord` from markov: an entry with a space is a
case-insensitive substring of the whole message; a single-word entry must
equal one of the whitespace-split tokens of the lowered message. -/
def containsBlacklistedWord (blacklist : List String) (message : String) : Bool :=
  let lowerMessage := goToLower message
  let words := fields lowerMessage
  blacklist.any fun entry =>
    let bl := goToLower entry
    if goContains bl " " then goContains lowerMessage bl
    else words.any fun word => word == bl

/-- `normalizeASCII` from markov: table-driven substitution of smart
quotes, dashes, ellipsis and Unicode spaces. -/
def normalizeChar (r : Char) : String :=
  let n := r.toNat
  if n = 0x2018 || n = 0x2019 || n = 0x201A || n = 0x201B || n = 0x2032 || n = 0x2035 then
    String.mk [Char.ofNat 39]
  else if n = 0x201C || n = 0x201D || n = 0x201E || n = 0x201F || n = 0x2033 || n = 0x2036 then
    "\""
  else if n = 0x2010 || n = 0x2011 || n = 0x2012 || n = 0x2013 || n = 0x2014 || n = 0x2015 then
    "-"
  else if n = 0x2026 then "..."
  else if n = 0xA0 || n = 0x2002 || n = 0x2003 || n = 0x2009 then " "
  else String.mk [r]

/-- `normalizeASCII` from markov, character by character. -/
def normalizeASCII (s : String) : String :=
  String.join (s.toList.map normalizeChar)

/-! ### The transitions table -/

/-- One row of the `transitions` table:
`(word1, word2, next_word) PRIMARY KEY, count INTEGER DEFAULT 1`. -/
structure Row where
  word1 : String
  word2 : String
  next : String
  count : Nat
deriving DecidableEq, Repr

/-- Does the row key equal the given triple? -/
def rowMatches (r : Row) (w1 w2 n : String) : Bool :=
  r.word1 == w1 && r.word2 == w2 && r.next == n

/-- The upsert of `Brain.learn`:
`INSERT ... VALUES (?,?,?,1) ON CONFLICT DO UPDATE SET count = count + 1`. -/
def recordTransition (s : List Row) (w1 w2 n : String) : List Row :=
  if s.any fun r => rowMatches r w1 w2 n then
    s.map fun r => if rowMatches r w1 w2 n then { r with count := r.count + 1 } else r
  else s ++ [⟨w1, w2, n, 1⟩]

/-- The sliding-window loop of `Brain.learn` over the token list: each
consecutive triple is recorded unless all three tokens coincide. -/
def learnTriples (s : List Row) : List String → List Row
  | w1 :: w2 :: w3 :: rest =>
    learnTriples
      (if w1 == w2 && w2 == w3 then s else recordTransition s w1 w2 w3)
      (w2 :: w3 :: rest)
  | _ => s

/-- `Brain.learn`: split into fields; fewer than 3 tokens is a no-op. -/
def learn (s : List Row) (message : String) : List Row :=
  if (fields message).length < 3 then s else learnTriples s (fields message)

/-- `Brain.DeleteTransition`: `DELETE ... WHERE word1 = ? AND word2 = ? AND next_word = ?`. -/
def deleteTransition (s : List Row) (w1 w2 n : String) : List Row :=
  s.filter fun r => !rowMatches r w1 w2 n

/-- `Brain.UpdateTransitionCount`: a count below 1 deletes the row,
otherwise `UPDATE transitions SET count = ?` on the keyed row. -/
def updateTransitionCount (s : List Row) (w1 w2 n : String) (count : Int) : List Row :=
  if count < 1 then deleteTransition s w1 w2 n
  else s.map fun r => if rowMatches r w1 w2 n then { r with count := count.toNat } else r

/-! ### Sampling and generation -/

/-- The seed query of `Generate` and `GenerateGlobal`:
`SELECT word1, word2 FROM transitions ORDER BY RANDOM() LIMIT 1`, i.e. a
uniformly random row; `k` is the random draw. `none` models the
`sql.ErrNoRows` outcome on an empty table. -/
def sampleRandomContext : List Row → Nat → Option (String × String)
  | [], _ => none
  | r0 :: rest, k =>
    let r := (r0 :: rest).get ⟨k % (r0 :: rest).length, Nat.mod_lt _ (Nat.succ_pos _)⟩
    some (r.word1, r.word2)

/-- `SELECT next_word, count FROM transitions WHERE word1 = ? AND word2 = ?`. -/
def candidatesFor (s : List Row) (w1 w2 : String) : List Row :=
  s.filter fun r => r.word1 == w1 && r.word2 == w2

/-- The `totalWeight` accumulator of the generation loop. -/
def totalWeight (cands : List Row) : Nat := (cands.map Row.count).sum

/-- The weighted-selection loop: running cumulative sum, first candidate
with `r < cumulative` wins; the Go zero value `""` results if no
candidate is reached. -/
def pickWeighted : List Row → Nat → Nat → String
  | [], _, _ => ""
  | c :: cs, r, cumulative =>
    if r < cumulative + c.count then c.next else pickWeighted cs r (cumulative + c.count)

/-- The `for i := 0; i < maxWords; i++` walk of `Brain.Generate`: query
candidates for the context, stop when none, else consume one random draw
from `rs` (`rng.Intn(totalWeight)` modelled as the draw reduced mod the
total) and slide the window. Returns the appended tokens. -/
def genWalk (s : List Row) : Nat → String → String → List Nat → List String
  | 0, _, _, _ => []
  | n + 1, w1, w2, rs =>
    let cands := candidatesFor s w1 w2
    if cands.isEmpty then []
    else
      let r := rs.headD 0 % totalWeight cands
      let nextWord := pickWeighted cands r 0
      nextWord :: genWalk s n w2 nextWord rs.tail

/-- The token list built by `Brain.Generate`: the sampled starting pair
followed by the walk. -/
def generateTokens (s : List Row) (k : Nat) (rs : List Nat) (maxWords : Nat) : List String :=
  match sampleRandomContext s k with
  | none => []
  | some (w1, w2) => w1 :: w2 :: genWalk s maxWords w1 w2 rs

/-- `Brain.Generate(maxWords)`: empty string when the seed query fails,
else the tokens joined with single spaces. -/
def generate (s : List Row) (k : Nat) (rs : List Nat) (maxWords : Nat) : String :=
  joinSpace (generateTokens s k rs maxWords)

/-! ### The brain manager (`markov.Manager`) -/

/-- The per-step pooled candidate query of `Manager.GenerateGlobal`:
candidates collected from every loaded brain in order. -/
def globalCandidates (stores : List (List Row)) (w1 w2 : String) : List Row :=
  (stores.map fun s => candidatesFor s w1 w2).flatten

/-- The walk of `Manager.GenerateGlobal`: like `genWalk` but pooling
candidates (and summing counts) across all loaded brains. -/
def globalWalk (stores : List (List Row)) : Nat → String → String → List Nat → List String
  | 0, _, _, _ => []
  | n + 1, w1, w2, rs =>
    let cands := globalCandidates stores w1 w2
    if cands.isEmpty then []
    else
      let r := rs.headD 0 % totalWeight cands
      let nextWord := pickWeighted cands r 0
      nextWord :: globalWalk stores n w2 nextWord rs.tail

/-- The token list of `Manager.GenerateGlobal`: empty when no brain is
loaded, else seed from a randomly chosen loaded brain (`b` is the brain
draw, `k` the seed-row draw) and walk over the pooled stores. -/
def generateGlobalTokens (stores : List (List Row)) (b k : Nat) (rs : List Nat)
    (maxWords : Nat) : List String :=
  match stores with
  | [] => []
  | s0 :: rest =>
    let brains := s0 :: rest
    let startBrain := brains.get ⟨b % brains.length, Nat.mod_lt _ (Nat.succ_pos _)⟩
    match sampleRandomContext startBrain k with
    | none => []
    | some (w1, w2) => w1 :: w2 :: globalWalk brains maxWords w1 w2 rs

/-- `Manager.GenerateGlobal(maxWords)`: `""` when no brain is loaded or
the seed query fails, else the pooled walk joined with spaces. -/
def generateGlobal (stores : List (List Row)) (b k : Nat) (rs : List Nat)
    (maxWords : Nat) : String :=
  joinSpace (generateGlobalTokens stores b k rs maxWords)

/-! ### The configuration capability (internal/config) -/

/-- The slice of the configuration capability the brain consults:
the word blacklist, the user blacklist (rows of `user_blacklist`,
stored lowercased), the per-channel `message_interval` column
(0 = unset) and the global `message_interval` config value. -/
structure Config where
  blacklist : List String
  blacklistedUsers : List String
  channelInterval : Int
  globalInterval : Int
deriving DecidableEq, Repr

/-- `Config.GetMessageInterval`: the stored value, with 0 falling back
to the default 35. -/
def Config.getMessageInterval (cfg : Config) : Int :=
  if cfg.globalInterval = 0 then 35 else cfg.globalInterval

/-- `Config.GetChannelMessageInterval`: the per-channel value, with 0 or
a failed lookup falling back to the global interval. -/
def Config.getChannelMessageInterval (cfg : Config) : Int :=
  if cfg.channelInterval = 0 then cfg.getMessageInterval else cfg.channelInterval

/-- `Config.IsBlacklistedUser`: row count for the lowered username. -/
def Config.isBlacklistedUser (cfg : Config) (username : String) : Bool :=
  cfg.blacklistedUsers.contains (goToLower username)

/-! ### Message processing (`Brain.ProcessMessageWithInfo`) -/

/-- Per-channel mutable brain state: the transitions store, the message
counter (in memory and, via `saveCounter`, the `msg_counter` state row),
the persisted last message and the `channels.message_count` column
touched by `IncrementChannelMessages`. -/
structure BrainState where
  store : List Row
  msgCounter : Int
  lastMessage : String
  channelMessages : Nat
deriving DecidableEq, Repr

/-- The `GenerationResult` record returned by `ProcessMessageWithInfo`. -/
structure GenerationResult where
  triggered : Bool := false
  success : Bool := false
  response : String := ""
  attempts : Nat := 0
  failureReason : String := ""
  counter : Int := 0
  interval : Int := 0
  usingGlobal : Bool := false
deriving DecidableEq, Repr

/-- The bounded retry loop of the generation phase: up to 5 calls of
`generator(20)`. `gen i 20` is the output of the i-th call, `i` the
attempt index already used, `remaining` the attempts left, `reason` the
failure reason recorded so far. Returns
(success, response, attempts, failureReason). -/
def tryGen (blacklist : List String) (gen : Nat → Nat → String) :
    Nat → Nat → String → Bool × String × Nat × String
  | i, 0, reason => (false, "", i, if reason = "" then "unknown" else reason)
  | i, remaining + 1, _reason =>
    let response := gen i 20
    if response = "" then tryGen blacklist gen (i + 1) remaining "empty_generation"
    else if containsBlacklistedWord blacklist response then
      tryGen blacklist gen (i + 1) remaining "blacklisted_word"
    else (true, response, i + 1, "")

/-- The accepted-message body of `Brain.ProcessMessageWithInfo`:
normalize, learn, increment the channel message count and the counter,
compare against the interval, and on `counter ≥ interval` reset the
counter and run the generation phase. -/
def processCore (cfg : Config) (st : BrainState) (message : String)
    (hasGlobalGenerator : Bool) (gen : Nat → Nat → String) :
    GenerationResult × BrainState :=
  let store := learn st.store (normalizeASCII message)
  let counter := st.msgCounter + 1
  let interval := cfg.getChannelMessageInterval
  if interval ≤ counter then
    let st1 : BrainState :=
      { store := store, msgCounter := 0, lastMessage := st.lastMessage,
        channelMessages := st.channelMessages + 1 }
    let t := tryGen cfg.blacklist gen 0 5 ""
    if t.1 then
      ({ triggered := true, success := true, response := t.2.1,
         attempts := t.2.2.1, failureReason := "", counter := 0,
         interval := interval, usingGlobal := hasGlobalGenerator },
       { st1 with lastMessage := t.2.1 })
    else
      ({ triggered := true, success := false, response := "",
         attempts := t.2.2.1, failureReason := t.2.2.2, counter := 0,
         interval := interval, usingGlobal := hasGlobalGenerator },
       st1)
  else
    ({ counter := counter, interval := interval },
     { store := store, msgCounter := counter, lastMessage := st.lastMessage,
       channelMessages := st.channelMessages + 1 })

/-- `Brain.ProcessMessageWithInfo`. `channel` is the brain's channel,
`hasGlobalGenerator` whether a cross-channel generator was injected, and
`gen i 20` the output of the i-th call of the configured generator. -/
def processMessageWithInfo (cfg : Config) (channel : String) (st : BrainState)
    (message username botUsername : String) (hasGlobalGenerator : Bool)
    (gen : Nat → Nat → String) : GenerationResult × BrainState :=
  if goStartsWith message "!" then ({}, st)
  else if goEqualFold username botUsername then ({}, st)
  else if goEqualFold channel botUsername then ({}, st)
  else if cfg.isBlacklistedUser username then ({}, st)
  else if containsLink message then ({}, st)
  else if !isMostlyEnglish message then ({}, st)
  else if containsBlacklistedWord cfg.blacklist message then ({}, st)
  else processCore cfg st message hasGlobalGenerator gen

/-- The learn-eligibility of a message: none of the seven rejection
conditions of `ProcessMessageWithInfo` holds. -/
def eligibleMessage (cfg : Config) (channel message username botUsername : String) : Bool :=
  !goStartsWith message "!" && !goEqualFold username botUsername &&
  !goEqualFold channel botUsername && !cfg.isBlacklistedUser username &&
  !containsLink message && isMostlyEnglish message &&
  !containsBlacklistedWord cfg.blacklist message

/-! ### The brain database file and `Brain.Erase` -/

/-- One row of the `state` table (`key, value, value_text`). -/
structure StateRow where
  key : String
  value : Int
  valueText : String
deriving DecidableEq, Repr

/-- A brain database file as created by `Brain.initDB`: exactly the two
tables `transitions` and `state`. -/
structure BrainDB where
  transitions : List Row
  state : List StateRow
deriving DecidableEq, Repr

/-- The tables `Brain.initDB` creates in a brain database. -/
def brainTables : List String := ["transitions", "state"]

/-- `DELETE FROM <table>` against a brain database: clears the named
table, or fails with the SQLite error when the table does not exist. -/
def execDeleteAll (db : BrainDB) (table : String) : Except String BrainDB :=
  if table = "transitions" then Except.ok { db with transitions := [] }
  else if table = "state" then Except.ok { db with state := [] }
  else Except.error ("no such table: " ++ table)

/-- `INSERT OR REPLACE INTO stats (key, value) VALUES ('message_count', '0')`
against a brain database: the schema has no `stats` table. -/
def execInsertStatsZero (db : BrainDB) : Except String BrainDB :=
  if brainTables.contains "stats" then Except.ok db
  else Except.error "no such table: stats"

/-- `Brain.Erase`: the statement sequence the source executes, stopping
at the first error (`VACUUM` has no modelled effect). -/
def eraseBrain (db : BrainDB) : Except String BrainDB :=
  match execDeleteAll db "markov_chain" with
  | Except.error e => Except.error e
  | Except.ok db1 =>
    match execDeleteAll db1 "stats" with
    | Except.error e => Except.error e
    | Except.ok db2 => execInsertStatsZero db2

/-! ### Reachable store states -/

/-- The store-mutating operations of the brain API. -/
inductive StoreOp where
  | learnOp (msg : String)
  | updateOp (w1 w2 n : String) (count : Int)
  | deleteOp (w1 w2 n : String)

/-- Apply one store operation. -/
def applyOp (s : List Row) : StoreOp → List Row
  | .learnOp msg => learn s msg
  | .updateOp w1 w2 n c => updateTransitionCount s w1 w2 n c
  | .deleteOp w1 w2 n => deleteTransition s w1 w2 n

/-- The store reached from the empty table by a sequence of operations. -/
def runOps (ops : List StoreOp) : List Row := ops.foldl applyOp []

/-! ### Helper lemmas -/

/-- Filtering a mapped list equals filtering the original when the map
preserves the predicate and fixes every element satisfying it. -/
theorem filterMapEq {α} (f : α → α) (p : α → Bool) (h1 : ∀ a, p (f a) = p a)
    (h2 : ∀ a, p a = true → f a = a) : ∀ l : List α, (l.map f).filter p = l.filter p
  | [] => rfl
  | a :: t => by
    simp only [List.map_cons, List.filter_cons, h1 a]
    cases hp : p a with
    | false => exact filterMapEq f p h1 h2 t
    | true => rw [h2 a hp, filterMapEq f p h1 h2 t]

/-- Recording a non-self-loop triple leaves the self-loop rows of the
store untouched. -/
theorem filterSelfRecord (s : List Row) (w1 w2 w3 : String)
    (h : ¬(w1 = w2 ∧ w2 = w3)) (w : String) :
    (recordTransition s w1 w2 w3).filter (fun r => rowMatches r w w w) =
      s.filter (fun r => rowMatches r w w w) := by
  unfold recordTransition
  split
  · apply filterMapEq
    · intro r
      dsimp only
      split <;> rfl
    · intro r hp
      dsimp only
      split
      · exfalso
        rename_i hm
        simp only [rowMatches, Bool.and_eq_true, beq_iff_eq] at hp hm
        obtain ⟨⟨e1, e2⟩, e3⟩ := hp
        obtain ⟨⟨f1, f2⟩, f3⟩ := hm
        exact h ⟨by rw [← f1, ← f2, e1, e2], by rw [← f2, ← f3, e2, e3]⟩
      · rfl
  · rw [List.filter_append]
    have hfalse : rowMatches ⟨w1, w2, w3, 1⟩ w w w = false := by
      cases hb : rowMatches ⟨w1, w2, w3, 1⟩ w w w with
      | false => rfl
      | true =>
        exfalso
        simp only [rowMatches, Bool.and_eq_true, beq_iff_eq] at hb
        exact h ⟨hb.1.1.trans hb.1.2.symm, hb.1.2.trans hb.2.symm⟩
    have hnew : List.filter (fun r => rowMatches r w w w) [⟨w1, w2, w3, 1⟩] = [] := by
      simp [List.filter_cons, hfalse]
    rw [hnew, List.append_nil]

/-- The sliding-window loop never touches self-loop rows. -/
theorem learnTriplesSelf (w : String) :
    ∀ (ws : List String) (s : List Row),
      (learnTriples s ws).filter (fun r => rowMatches r w w w) =
        s.filter (fun r => rowMatches r w w w)
  | [], _ => rfl
  | [_], _ => rfl
  | [_, _], _ => rfl
  | w1 :: w2 :: w3 :: rest, s => by
    rw [learnTriples]
    rw [learnTriplesSelf w (w2 :: w3 :: rest)]
    split
    · rfl
    · rename_i hc
      apply filterSelfRecord
      intro hand
      apply hc
      simp only [Bool.and_eq_true, beq_iff_eq]
      exact ⟨hand.1, hand.2⟩

/-- The seed query at an in-range draw returns the pair of that row. -/
theorem sampleAt (s : List Row) (k : Nat) (hk : k < s.length) :
    sampleRandomContext s k =
      some ((s.getD k ⟨"", "", "", 0⟩).word1, (s.getD k ⟨"", "", "", 0⟩).word2) := by
  cases s with
  | nil => simp at hk
  | cons r0 rest =>
    simp only [sampleRandomContext]
    have hmod : k % (r0 :: rest).length = k := Nat.mod_eq_of_lt hk
    simp only [hmod]
    rw [List.getD_eq_get _ _ hk]

/-- Counting over indices of `range` equals counting over the rows. -/
theorem countPRangeGet (s : List Row) (f : Row → Bool) :
    (List.range s.length).countP (fun k => f (s.getD k ⟨"", "", "", 0⟩)) = s.countP f := by
  induction s with
  | nil => rfl
  | cons r t ih =>
    rw [List.length_cons, List.range_succ_eq_map, List.countP_cons, List.countP_map,
      List.countP_cons]
    simp only [List.getD_cons_zero, List.getD_cons_succ, Function.comp_def]
    rw [ih]

/-! ### Claim theorems -/

/-- C1 (code_bug evidence): `Brain.Erase` deletes from the tables
`markov_chain` and `stats`, but `Brain.initDB` only ever creates the
tables `transitions` and `state`; hence `Erase` fails on every brain
database with the SQLite error for the missing table, deleting no
transition row and leaving the persisted counter untouched. -/
theorem eraseAlwaysFailsOnBrainSchema (db : BrainDB) :
    eraseBrain db = Except.error "no such table: markov_chain" := rfl

/-- C2 counterexample: the seed step is NOT uniform over distinct
context pairs. In the store with rows (a,b,c), (a,b,d), (x,y,z), both
pairs (a,b) and (x,y) are present, but over the uniform row draws the
pair (a,b) is hit twice and (x,y) once. -/
theorem sampleSeedNotPairUniform :
    (∃ r ∈ [Row.mk "a" "b" "c" 1, Row.mk "a" "b" "d" 1, Row.mk "x" "y" "z" 1],
       r.word1 = "a" ∧ r.word2 = "b") ∧
    (∃ r ∈ [Row.mk "a" "b" "c" 1, Row.mk "a" "b" "d" 1, Row.mk "x" "y" "z" 1],
       r.word1 = "x" ∧ r.word2 = "y") ∧
    ¬((List.range 3).countP
        (fun k => decide (sampleRandomContext
          [Row.mk "a" "b" "c" 1, Row.mk "a" "b" "d" 1, Row.mk "x" "y" "z" 1] k =
            some ("a", "b"))) =
      (List.range 3).countP
        (fun k => decide (sampleRandomContext
          [Row.mk "a" "b" "c" 1, Row.mk "a" "b" "d" 1, Row.mk "x" "y" "z" 1] k =
            some ("x", "y")))) := by decide

/-- C2 amended: the seed step returns `none` exactly on the empty store,
and otherwise draws a uniformly random row of the transitions table, so
a context pair is chosen with probability proportional to its number of
rows (its distinct next words), not uniformly over distinct pairs. -/
theorem sampleSeedRowWeighted (s : List Row) (p : String × String) :
    (∀ k, (sampleRandomContext s k = none ↔ s = [])) ∧
    (List.range s.length).countP (fun k => decide (sampleRandomContext s k = some p)) =
      s.countP (fun r => decide ((r.word1, r.word2) = p)) := by
  constructor
  · intro k
    cases s with
    | nil => simp [sampleRandomContext]
    | cons r0 rest => simp [sampleRandomContext]
  · rw [← countPRangeGet s (fun r => decide ((r.word1, r.word2) = p))]
    apply List.countP_congr
    intro k hk
    rw [List.mem_range] at hk
    rw [sampleAt s k hk]
    simp

/-- C9: learning never records a self-loop transition: the rows whose
three tokens all equal `w` are exactly the same (with the same counts)
before and after any `learn` call, and in particular learning the
message "go go go" into an empty store records nothing. -/
theorem learnNeverRecordsSelfLoop (s : List Row) (msg w : String) :
    ((learn s msg).filter (fun r => rowMatches r w w w) =
      s.filter (fun r => rowMatches r w w w)) ∧
    learn [] "go go go" = [] := by
  constructor
  · unfold learn
    split
    · rfl
    · exact learnTriplesSelf w (fields msg) s
  · decide

/-- C10: with no loaded brains, `Manager.GenerateGlobal` returns the
empty string for every token limit and every random draw. -/
theorem generateGlobalNoBrains (b k : Nat) (rs : List Nat) (maxWords : Nat) :
    generateGlobal [] b k rs maxWords = "" := rfl

/-- C5: the blacklisted-content check holds iff some entry matches as
specified: an entry containing a space matches as a case-insensitive
substring of the whole message, a single-word entry only as an exact
case-insensitive whitespace-delimited token; and on the concrete
examples, "bad" matches "this is bad" but not "badger", while the phrase
"bad word" matches "that is a bad word combo". -/
theorem blacklistedContentSpec :
    (∀ (bl : List String) (msg : String),
      containsBlacklistedWord bl msg = true ↔
        ∃ e ∈ bl,
          (goContains (goToLower e) " " = true ∧
            goContains (goToLower msg) (goToLower e) = true) ∨
          (goContains (goToLower e) " " = false ∧
            goToLower e ∈ fields (goToLower msg))) ∧
    containsBlacklistedWord ["bad"] "this is bad" = true ∧
    containsBlacklistedWord ["bad"] "badger" = false ∧
    containsBlacklistedWord ["bad word"] "that is a bad word combo" = true := by
  refine ⟨?_, by decide, by decide, by decide⟩
  intro bl msg
  simp only [containsBlacklistedWord, List.any_eq_true]
  apply exists_congr
  intro e
  apply and_congr_right
  intro _
  cases hc : goContains (goToLower e) " " with
  | true =>
    simp only [hc, if_true, true_and, Bool.true_eq_false, false_and, or_false]
  | false =>
    simp only [hc, Bool.false_eq_true, if_false, false_and, true_and, false_or,
      List.any_eq_true, beq_iff_eq]
    constructor
    · rintro ⟨w, hw, rfl⟩
      exact hw
    · intro hm
      exact ⟨_, hm, rfl⟩

/-- Recording a transition keeps every count at least 1. -/
theorem recordTransitionInv (s : List Row) (w1 w2 n : String)
    (h : ∀ r ∈ s, 1 ≤ r.count) : ∀ r ∈ recordTransition s w1 w2 n, 1 ≤ r.count := by
  intro r hr
  unfold recordTransition at hr
  split at hr
  · rw [List.mem_map] at hr
    obtain ⟨a, ha, heq⟩ := hr
    subst heq
    split
    · simp
    · exact h a ha
  · rw [List.mem_append] at hr
    cases hr with
    | inl hr => exact h r hr
    | inr hr =>
      simp only [List.mem_singleton] at hr
      subst hr
      exact Nat.le_refl 1

/-- The learn loop keeps every count at least 1. -/
theorem learnTriplesInv :
    ∀ (ws : List String) (s : List Row), (∀ r ∈ s, 1 ≤ r.count) →
      ∀ r ∈ learnTriples s ws, 1 ≤ r.count
  | [], _, h => h
  | [_], _, h => h
  | [_, _], _, h => h
  | w1 :: w2 :: w3 :: rest, s, h => by
    rw [learnTriples]
    apply learnTriplesInv (w2 :: w3 :: rest)
    split
    · exact h
    · exact recordTransitionInv s w1 w2 w3 h

/-- `learn` keeps every count at least 1. -/
theorem learnInv (s : List Row) (msg : String) (h : ∀ r ∈ s, 1 ≤ r.count) :
    ∀ r ∈ learn s msg, 1 ≤ r.count := by
  unfold learn
  split
  · exact h
  · exact learnTriplesInv (fields msg) s h

/-- Every store operation keeps every count at least 1. -/
theorem applyOpInv (s : List Row) (op : StoreOp) (h : ∀ r ∈ s, 1 ≤ r.count) :
    ∀ r ∈ applyOp s op, 1 ≤ r.count := by
  cases op with
  | learnOp msg => exact learnInv s msg h
  | updateOp w1 w2 n c =>
    intro r hr
    simp only [applyOp, updateTransitionCount] at hr
    split at hr
    · simp only [deleteTransition] at hr
      exact h r (List.mem_of_mem_filter hr)
    · rename_i hc
      rw [List.mem_map] at hr
      obtain ⟨a, ha, heq⟩ := hr
      subst heq
      split
      · show 1 ≤ c.toNat
        omega
      · exact h a ha
  | deleteOp w1 w2 n =>
    intro r hr
    simp only [applyOp, deleteTransition] at hr
    exact h r (List.mem_of_mem_filter hr)

/-- C6: every store state reachable from the empty table through the
store-mutating brain operations (learning, editing a count, deleting)
has every transition count at least 1: recording inserts with count 1 or
increments, and setting a count below 1 deletes the row. -/
theorem reachableCountsPositive (ops : List StoreOp) (r : Row)
    (hr : r ∈ runOps ops) : 1 ≤ r.count := by
  have key : ∀ (l : List StoreOp) (s : List Row), (∀ x ∈ s, 1 ≤ x.count) →
      ∀ x ∈ l.foldl applyOp s, 1 ≤ x.count := by
    intro l
    induction l with
    | nil => intro s h x hx; exact h x hx
    | cons o t ih =>
      intro s h x hx
      rw [List.foldl_cons] at hx
      exact ih (applyOp s o) (applyOpInv s o h) x hx
  exact key ops [] (by intro x hx; cases hx) r hr

/-- C6 witness: the store reached by learning "a b c" holds the row
(a, b, c) with count 1, and its count is at least 1. -/
theorem reachableCountsPositiveWitness :
    Row.mk "a" "b" "c" 1 ∈ runOps [StoreOp.learnOp "a b c"] ∧
      1 ≤ (Row.mk "a" "b" "c" 1).count :=
  ⟨by decide, reachableCountsPositive [StoreOp.learnOp "a b c"] _ (by decide)⟩

/-- `takeWhile` runs through a block of satisfying elements and stops at
the first failing one. -/
theorem takeWhileAppendStop {α} (p : α → Bool) :
    ∀ (w : List α) (x : α) (rest : List α),
      (∀ c ∈ w, p c = true) → p x = false → (w ++ x :: rest).takeWhile p = w
  | [], x, rest, _, hx => by simp [List.takeWhile_cons, hx]
  | a :: t, x, rest, hw, hx => by
    simp only [List.cons_append, List.takeWhile_cons, hw a (by simp), if_true]
    rw [takeWhileAppendStop p t x rest (fun c hc => hw c (by simp [hc])) hx]

/-- `dropWhile` drops a block of satisfying elements and stops at the
first failing one. -/
theorem dropWhileAppendStop {α} (p : α → Bool) :
    ∀ (w : List α) (x : α) (rest : List α),
      (∀ c ∈ w, p c = true) → p x = false → (w ++ x :: rest).dropWhile p = x :: rest
  | [], x, rest, _, hx => by simp [List.dropWhile_cons, hx]
  | a :: t, x, rest, hw, hx => by
    simp only [List.cons_append, List.dropWhile_cons, hw a (by simp), if_true]
    exact dropWhileAppendStop p t x rest (fun c hc => hw c (by simp [hc])) hx

/-- `takeWhile` keeps everything when all elements satisfy. -/
theorem takeWhileAllTrue {α} (p : α → Bool) :
    ∀ w : List α, (∀ c ∈ w, p c = true) → w.takeWhile p = w
  | [], _ => rfl
  | a :: t, h => by
    simp only [List.takeWhile_cons, h a (by simp), if_true]
    rw [takeWhileAllTrue p t (fun c hc => h c (by simp [hc]))]

/-- `dropWhile` drops everything when all elements satisfy. -/
theorem dropWhileAllTrue {α} (p : α → Bool) :
    ∀ w : List α, (∀ c ∈ w, p c = true) → w.dropWhile p = []
  | [], _ => rfl
  | a :: t, h => by
    simp only [List.dropWhile_cons, h a (by simp), if_true]
    exact dropWhileAllTrue p t (fun c hc => h c (by simp [hc]))

/-- The fuelled splitter ignores fuel on the empty list. -/
theorem fieldsCharsFuelNil : ∀ f : Nat, fieldsCharsFuel f [] = [] := by
  intro f
  cases f <;> rfl

/-- The length of `dropWhile` never exceeds the length of the input. -/
theorem dropWhileLenLe {α} (p : α → Bool) : ∀ l : List α, (l.dropWhile p).length ≤ l.length
  | [] => by simp [List.dropWhile]
  | c :: cs => by
    simp only [List.dropWhile]
    split
    · exact Nat.le_succ_of_le (dropWhileLenLe p cs)
    · exact Nat.le_refl _

/-- The fuelled splitter is fuel-independent once the fuel covers the
length of the list. -/
theorem fieldsCharsFuelCongr :
    ∀ (fuel fuel2 : Nat) (l : List Char), l.length ≤ fuel → l.length ≤ fuel2 →
      fieldsCharsFuel fuel l = fieldsCharsFuel fuel2 l
  | _, _, [], _, _ => by rw [fieldsCharsFuelNil, fieldsCharsFuelNil]
  | 0, _, c :: cs, h1, _ => by simp at h1
  | _ + 1, 0, c :: cs, _, h2 => by simp at h2
  | f1 + 1, f2 + 1, c :: cs, h1, h2 => by
    simp only [List.length_cons] at h1 h2
    simp only [fieldsCharsFuel]
    by_cases hsp : goIsSpace c
    · simp only [hsp, if_true]
      exact fieldsCharsFuelCongr f1 f2 cs (by omega) (by omega)
    · simp only [hsp, Bool.false_eq_true, if_false]
      congr 1
      have hd := dropWhileLenLe (fun d => !goIsSpace d) cs
      exact fieldsCharsFuelCongr f1 f2 (cs.dropWhile fun d => !goIsSpace d)
        (by omega) (by omega)

/-- A leading space character is skipped by the splitter. -/
theorem fieldsCharsSpaceCons (c : Char) (cs : List Char) (hc : goIsSpace c = true) :
    fieldsChars (c :: cs) = fieldsChars cs := by
  show fieldsCharsFuel (c :: cs).length (c :: cs) = _
  simp only [List.length_cons, fieldsCharsFuel, hc, if_true]
  rfl

/-- Fuelled splitting of a non-empty space-free word followed by a
space: the word comes off whole. -/
theorem fieldsCharsFuelWordSpace (c : Char) (cs rest : List Char) (f : Nat)
    (hf : cs.length + rest.length + 1 ≤ f)
    (hc : goIsSpace c = false) (hcs : ∀ d ∈ cs, goIsSpace d = false) :
    fieldsCharsFuel (f + 1) (c :: (cs ++ ' ' :: rest)) = (c :: cs) :: fieldsChars rest := by
  simp only [fieldsCharsFuel, hc, Bool.false_eq_true, if_false]
  have htake : (cs ++ ' ' :: rest).takeWhile (fun d => !goIsSpace d) = cs :=
    takeWhileAppendStop _ cs ' ' rest (fun d hd => by simp [hcs d hd]) (by decide)
  have hdrop : (cs ++ ' ' :: rest).dropWhile (fun d => !goIsSpace d) = ' ' :: rest :=
    dropWhileAppendStop _ cs ' ' rest (fun d hd => by simp [hcs d hd]) (by decide)
  rw [htake, hdrop]
  congr 1
  cases f with
  | zero => simp at hf
  | succ f2 =>
    have hsp : goIsSpace ' ' = true := by decide
    simp only [fieldsCharsFuel, hsp, if_true]
    exact fieldsCharsFuelCongr f2 rest.length rest (by omega) (Nat.le_refl _)

/-- Splitting a non-empty space-free word followed by a space and any
remainder: the word comes off whole. -/
theorem fieldsCharsWordSpace (w rest : List Char) (hne : w ≠ [])
    (hw : ∀ c ∈ w, goIsSpace c = false) :
    fieldsChars (w ++ ' ' :: rest) = w :: fieldsChars rest := by
  cases w with
  | nil => exact absurd rfl hne
  | cons c cs =>
    show fieldsCharsFuel ((c :: cs) ++ ' ' :: rest).length ((c :: cs) ++ ' ' :: rest) = _
    have hlen : ((c :: cs) ++ ' ' :: rest).length = (cs.length + rest.length + 1) + 1 := by
      simp [List.length_append, List.length_cons]
      omega
    rw [hlen, List.cons_append]
    exact fieldsCharsFuelWordSpace c cs rest _ (Nat.le_refl _) (hw c (by simp))
      (fun d hd => hw d (by simp [hd]))

/-- Splitting a single non-empty space-free word yields that word. -/
theorem fieldsCharsSingleWord (w : List Char) (hne : w ≠ [])
    (hw : ∀ c ∈ w, goIsSpace c = false) : fieldsChars w = [w] := by
  cases w with
  | nil => exact absurd rfl hne
  | cons c cs =>
    show fieldsCharsFuel (c :: cs).length (c :: cs) = _
    simp only [List.length_cons, fieldsCharsFuel, hw c (by simp), Bool.false_eq_true, if_false]
    rw [takeWhileAllTrue _ cs (fun d hd => by simp [hw d (by simp [hd])]),
      dropWhileAllTrue _ cs (fun d hd => by simp [hw d (by simp [hd])]),
      fieldsCharsFuelNil]

/-- Splitting a space-joined list of space-free words recovers exactly
the non-empty words. -/
theorem fieldsJoinSpace :
    ∀ L : List (List Char), (∀ w ∈ L, ∀ c ∈ w, goIsSpace c = false) →
      fieldsChars (joinSpaceChars L) = L.filter (fun w => !w.isEmpty)
  | [], _ => rfl
  | [w], h => by
    simp only [joinSpaceChars]
    cases w with
    | nil => rfl
    | cons c cs =>
      rw [fieldsCharsSingleWord (c :: cs) (by simp) (h (c :: cs) (by simp))]
      rfl
  | w :: w2 :: ws, h => by
    simp only [joinSpaceChars]
    cases w with
    | nil =>
      rw [List.nil_append, fieldsCharsSpaceCons ' ' _ (by decide),
        fieldsJoinSpace (w2 :: ws) (fun x hx => h x (by simp [hx]))]
      rfl
    | cons c cs =>
      rw [fieldsCharsWordSpace (c :: cs) _ (by simp) (h (c :: cs) (by simp)),
        fieldsJoinSpace (w2 :: ws) (fun x hx => h x (by simp [hx]))]
      rfl

/-- The weighted pick returns the next word of some candidate, or the Go
zero value on an out-of-range draw. -/
theorem pickWeightedRange :
    ∀ (cands : List Row) (r c : Nat),
      pickWeighted cands r c = "" ∨ ∃ x ∈ cands, pickWeighted cands r c = x.next
  | [], _, _ => Or.inl rfl
  | x :: t, r, c => by
    simp only [pickWeighted]
    split
    · exact Or.inr ⟨x, by simp, rfl⟩
    · cases pickWeightedRange t r (c + x.count) with
      | inl h => exact Or.inl h
      | inr h =>
        obtain ⟨y, hy, he⟩ := h
        exact Or.inr ⟨y, by simp [hy], he⟩

/-- The generation walk appends at most `n` tokens. -/
theorem genWalkLen (s : List Row) :
    ∀ (n : Nat) (w1 w2 : String) (rs : List Nat), (genWalk s n w1 w2 rs).length ≤ n
  | 0, _, _, _ => by simp [genWalk]
  | n + 1, w1, w2, rs => by
    simp only [genWalk]
    split
    · simp
    · simp only [List.length_cons]
      exact Nat.succ_le_succ (genWalkLen s n _ _ _)

/-- Every token the walk appends is some row's next word, or the Go zero
value. -/
theorem genWalkTokens (s : List Row) :
    ∀ (n : Nat) (w1 w2 : String) (rs : List Nat),
      ∀ t ∈ genWalk s n w1 w2 rs, t = "" ∨ ∃ x ∈ s, t = x.next
  | 0, _, _, _ => by simp [genWalk]
  | n + 1, w1, w2, rs => by
    simp only [genWalk]
    split
    · simp
    · intro t ht
      rw [List.mem_cons] at ht
      cases ht with
      | inl he =>
        subst he
        cases pickWeightedRange (candidatesFor s w1 w2) _ 0 with
        | inl hp => exact Or.inl hp
        | inr hp =>
          obtain ⟨x, hx, he2⟩ := hp
          simp only [candidatesFor] at hx
          exact Or.inr ⟨x, List.mem_of_mem_filter hx, he2⟩
      | inr hmem => exact genWalkTokens s n _ _ _ t hmem

/-- The seed pair comes from a row of the store. -/
theorem sampleRandomContextMem (s : List Row) (k : Nat) (w1 w2 : String)
    (hs : sampleRandomContext s k = some (w1, w2)) :
    ∃ r ∈ s, r.word1 = w1 ∧ r.word2 = w2 := by
  cases s with
  | nil => simp [sampleRandomContext] at hs
  | cons r0 rest =>
    simp only [sampleRandomContext, Option.some.injEq, Prod.mk.injEq] at hs
    exact ⟨(r0 :: rest).get ⟨k % (r0 :: rest).length, Nat.mod_lt _ (Nat.succ_pos _)⟩,
      List.get_mem _ _ _, hs.1, hs.2⟩

/-- C3 counterexample: with the single transition (a, b, c) and limit 1,
Generate returns "a b c", which has three whitespace-separated tokens
and so exceeds the one-token limit: the seeded context pair is not
counted against the limit. -/
theorem generateExceedsMaxTokens :
    generate [Row.mk "a" "b" "c" 1] 0 [0] 1 = "a b c" ∧
    (fields (generate [Row.mk "a" "b" "c" 1] 0 [0] 1)).length = 3 ∧
    ¬((fields (generate [Row.mk "a" "b" "c" 1] 0 [0] 1)).length ≤ 1) := by decide

/-- C3 amended: for every store whose stored tokens contain no
whitespace (every learned token is whitespace-free, being produced by
Fields), the text returned by Generate(maxWords) has at most
maxWords + 2 whitespace-separated tokens: the seeded context pair plus
at most maxWords appended tokens. A call with the fixed limit 20 hence
returns at most 22 tokens, not 20. -/
theorem generateTokenBound (s : List Row) (k : Nat) (rs : List Nat) (n : Nat)
    (h : ∀ r ∈ s, (∀ c ∈ r.word1.toList, goIsSpace c = false) ∧
         (∀ c ∈ r.word2.toList, goIsSpace c = false) ∧
         (∀ c ∈ r.next.toList, goIsSpace c = false)) :
    (fields (generate s k rs n)).length ≤ n + 2 := by
  have htoks : ∀ t ∈ generateTokens s k rs n, ∀ c ∈ t.toList, goIsSpace c = false := by
    intro t ht
    unfold generateTokens at ht
    cases hsc : sampleRandomContext s k with
    | none => simp [hsc] at ht
    | some p =>
      obtain ⟨w1, w2⟩ := p
      simp only [hsc, List.mem_cons] at ht
      obtain ⟨r, hrs, h1, h2⟩ := sampleRandomContextMem s k w1 w2 hsc
      rcases ht with rfl | rfl | hwalk
      · rw [← h1]; exact (h r hrs).1
      · rw [← h2]; exact (h r hrs).2.1
      · rcases genWalkTokens s n w1 w2 rs t hwalk with heq | ⟨x, hx, heq⟩
        · subst heq; intro c hc; simp at hc
        · subst heq; exact (h x hx).2.2
  have hlen : (generateTokens s k rs n).length ≤ n + 2 := by
    unfold generateTokens
    cases sampleRandomContext s k with
    | none => simp
    | some p =>
      obtain ⟨w1, w2⟩ := p
      simp only [List.length_cons]
      have := genWalkLen s n w1 w2 rs
      omega
  have hfields : fields (generate s k rs n) =
      (((generateTokens s k rs n).map String.toList).filter
        (fun w => !w.isEmpty)).map String.mk := by
    show fields (joinSpace _) = _
    unfold fields joinSpace
    rw [show (String.mk (joinSpaceChars ((generateTokens s k rs n).map String.toList))).toList
        = joinSpaceChars ((generateTokens s k rs n).map String.toList) from rfl]
    rw [fieldsJoinSpace _ ?hws]
    case hws =>
      intro w hw
      rw [List.mem_map] at hw
      obtain ⟨t, ht, rfl⟩ := hw
      exact htoks t ht
  rw [hfields, List.length_map]
  calc (((generateTokens s k rs n).map String.toList).filter (fun w => !w.isEmpty)).length
      ≤ ((generateTokens s k rs n).map String.toList).length := List.length_filter_le _ _
    _ = (generateTokens s k rs n).length := List.length_map _ _
    _ ≤ n + 2 := hlen

/-- C3 witness: the amended bound applied to the one-transition store
with limit 1: the returned text has at most 3 tokens. -/
theorem generateTokenBoundWitness :
    (∀ r ∈ [Row.mk "a" "b" "c" 1],
       (∀ c ∈ r.word1.toList, goIsSpace c = false) ∧
       (∀ c ∈ r.word2.toList, goIsSpace c = false) ∧
       (∀ c ∈ r.next.toList, goIsSpace c = false)) ∧
    (fields (generate [Row.mk "a" "b" "c" 1] 0 [0] 1)).length ≤ 1 + 2 :=
  ⟨by decide, generateTokenBound [Row.mk "a" "b" "c" 1] 0 [0] 1 (by decide)⟩

/-- An eligible message passes all seven rejection checks and reaches
the processing core. -/
theorem processEligible (cfg : Config) (channel : String) (st : BrainState)
    (message username bot : String) (hg : Bool) (gen : Nat → Nat → String)
    (he : eligibleMessage cfg channel message username bot = true) :
    processMessageWithInfo cfg channel st message username bot hg gen =
      processCore cfg st message hg gen := by
  simp only [eligibleMessage, Bool.and_eq_true, Bool.not_eq_true'] at he
  obtain ⟨⟨⟨⟨⟨⟨h1, h2⟩, h3⟩, h4⟩, h5⟩, h6⟩, h7⟩ := he
  simp only [processMessageWithInfo, h1, h2, h3, h4, h5, h6, h7, Bool.not_true,
    Bool.false_eq_true, if_false]

/-- For an eligible message, the step triggers iff the incremented
counter reaches the interval; triggering resets the stored counter to 0,
otherwise the incremented counter is stored; the reported counter equals
the stored one. -/
theorem stepFacts (cfg : Config) (channel : String) (st : BrainState)
    (message username bot : String) (hg : Bool) (gen : Nat → Nat → String)
    (he : eligibleMessage cfg channel message username bot = true) :
    ((processMessageWithInfo cfg channel st message username bot hg gen).1.triggered =
       decide (cfg.getChannelMessageInterval ≤ st.msgCounter + 1)) ∧
    ((processMessageWithInfo cfg channel st message username bot hg gen).2.msgCounter =
       if cfg.getChannelMessageInterval ≤ st.msgCounter + 1 then 0 else st.msgCounter + 1) ∧
    ((processMessageWithInfo cfg channel st message username bot hg gen).1.counter =
       (processMessageWithInfo cfg channel st message username bot hg gen).2.msgCounter) := by
  rw [processEligible cfg channel st message username bot hg gen he]
  unfold processCore
  by_cases hr : cfg.getChannelMessageInterval ≤ st.msgCounter + 1
  · simp only [hr, if_true, decide_eq_true_eq]
    cases ht : (tryGen cfg.blacklist gen 0 5 "").1 <;>
      simp [ht]
  · simp only [hr, if_false, decide_eq_false hr]
    simp

/-- The retry loop makes at most `i + remaining` attempts in total; on
success it returns the first acceptable generator output with the
matching attempt count, and on failure it has used every attempt and
reports one of the three reason codes. -/
theorem tryGenSpec (bl : List String) (gen : Nat → Nat → String) :
    ∀ (remaining i : Nat) (reason : String),
      reason = "" ∨ reason = "empty_generation" ∨ reason = "blacklisted_word" →
      (tryGen bl gen i remaining reason).2.2.1 ≤ i + remaining ∧
      ((tryGen bl gen i remaining reason).1 = true →
        (tryGen bl gen i remaining reason).2.1 ≠ "" ∧
        containsBlacklistedWord bl (tryGen bl gen i remaining reason).2.1 = false ∧
        ∃ j, i ≤ j ∧ j < i + remaining ∧
          (tryGen bl gen i remaining reason).2.1 = gen j 20 ∧
          (tryGen bl gen i remaining reason).2.2.1 = j + 1 ∧
          ∀ l, i ≤ l → l < j →
            gen l 20 = "" ∨ containsBlacklistedWord bl (gen l 20) = true) ∧
      ((tryGen bl gen i remaining reason).1 = false →
        (tryGen bl gen i remaining reason).2.2.1 = i + remaining ∧
        ((tryGen bl gen i remaining reason).2.2.2 = "empty_generation" ∨
         (tryGen bl gen i remaining reason).2.2.2 = "blacklisted_word" ∨
         (tryGen bl gen i remaining reason).2.2.2 = "unknown") ∧
        ∀ l, i ≤ l → l < i + remaining →
          gen l 20 = "" ∨ containsBlacklistedWord bl (gen l 20) = true) := by
  intro remaining
  induction remaining with
  | zero =>
    intro i reason hreason
    refine ⟨Nat.le_add_right i 0, ?_, ?_⟩
    · intro hs
      simp [tryGen] at hs
    · intro _
      refine ⟨rfl, ?_, ?_⟩
      · rcases hreason with rfl | rfl | rfl <;> simp [tryGen]
      · intro l _ hl2
        omega
  | succ rem ih =>
    intro i reason _
    show (tryGen bl gen i (rem + 1) reason).2.2.1 ≤ i + (rem + 1) ∧ _ ∧ _
    by_cases h1 : gen i 20 = ""
    · have hred : tryGen bl gen i (rem + 1) reason =
          tryGen bl gen (i + 1) rem "empty_generation" := by
        simp [tryGen, h1]
      rw [hred]
      obtain ⟨ha, hs, hf⟩ := ih (i + 1) "empty_generation" (Or.inr (Or.inl rfl))
      refine ⟨by omega, ?_, ?_⟩
      · intro ht
        obtain ⟨hne, hbl, j, hj1, hj2, hj3, hj4, hj5⟩ := hs ht
        refine ⟨hne, hbl, j, by omega, by omega, hj3, hj4, ?_⟩
        intro l hl1 hl2
        rcases Nat.lt_or_ge l (i + 1) with hlt | hge
        · have : l = i := by omega
          subst this
          exact Or.inl h1
        · exact hj5 l hge hl2
      · intro ht
        obtain ⟨ha2, hr2, hall⟩ := hf ht
        refine ⟨by omega, hr2, ?_⟩
        intro l hl1 hl2
        rcases Nat.lt_or_ge l (i + 1) with hlt | hge
        · have : l = i := by omega
          subst this
          exact Or.inl h1
        · exact hall l hge (by omega)
    · by_cases h2 : containsBlacklistedWord bl (gen i 20) = true
      · have hred : tryGen bl gen i (rem + 1) reason =
            tryGen bl gen (i + 1) rem "blacklisted_word" := by
          simp [tryGen, h1, h2]
        rw [hred]
        obtain ⟨ha, hs, hf⟩ := ih (i + 1) "blacklisted_word" (Or.inr (Or.inr rfl))
        refine ⟨by omega, ?_, ?_⟩
        · intro ht
          obtain ⟨hne, hbl, j, hj1, hj2, hj3, hj4, hj5⟩ := hs ht
          refine ⟨hne, hbl, j, by omega, by omega, hj3, hj4, ?_⟩
          intro l hl1 hl2
          rcases Nat.lt_or_ge l (i + 1) with hlt | hge
          · have : l = i := by omega
            subst this
            exact Or.inr h2
          · exact hj5 l hge hl2
        · intro ht
          obtain ⟨ha2, hr2, hall⟩ := hf ht
          refine ⟨by omega, hr2, ?_⟩
          intro l hl1 hl2
          rcases Nat.lt_or_ge l (i + 1) with hlt | hge
          · have : l = i := by omega
            subst this
            exact Or.inr h2
          · exact hall l hge (by omega)
      · have hred : tryGen bl gen i (rem + 1) reason = (true, gen i 20, i + 1, "") := by
          simp [tryGen, h1, h2]
        rw [hred]
        refine ⟨by show i + 1 ≤ i + (rem + 1); omega, ?_, ?_⟩
        · intro _
          refine ⟨h1, by simpa using h2, i, Nat.le_refl i, by omega, rfl, rfl, ?_⟩
          intro l hl1 hl2
          omega
        · intro ht
          simp at ht

/-- C4: with a resolved channel interval of 5 and the counter starting
at 0, four eligible messages do not trigger generation and leave the
counter at 1, 2, 3, 4; the fifth triggers (counter ≥ interval), resets
the stored counter to 0 and reports counter 0. -/
theorem counterThresholdFive (cfg : Config) (channel u bot : String)
    (gen : Nat → Nat → String) (st0 : BrainState) (m1 m2 m3 m4 m5 : String)
    (hint : cfg.getChannelMessageInterval = 5) (h0 : st0.msgCounter = 0)
    (he1 : eligibleMessage cfg channel m1 u bot = true)
    (he2 : eligibleMessage cfg channel m2 u bot = true)
    (he3 : eligibleMessage cfg channel m3 u bot = true)
    (he4 : eligibleMessage cfg channel m4 u bot = true)
    (he5 : eligibleMessage cfg channel m5 u bot = true) :
    (let p1 := processMessageWithInfo cfg channel st0 m1 u bot false gen
     let p2 := processMessageWithInfo cfg channel p1.2 m2 u bot false gen
     let p3 := processMessageWithInfo cfg channel p2.2 m3 u bot false gen
     let p4 := processMessageWithInfo cfg channel p3.2 m4 u bot false gen
     let p5 := processMessageWithInfo cfg channel p4.2 m5 u bot false gen
     p1.1.triggered = false ∧ p1.2.msgCounter = 1 ∧
     p2.1.triggered = false ∧ p2.2.msgCounter = 2 ∧
     p3.1.triggered = false ∧ p3.2.msgCounter = 3 ∧
     p4.1.triggered = false ∧ p4.2.msgCounter = 4 ∧
     p5.1.triggered = true ∧ p5.1.counter = 0 ∧ p5.2.msgCounter = 0) := by
  obtain ⟨t1, c1, r1⟩ := stepFacts cfg channel st0 m1 u bot false gen he1
  rw [hint, h0] at t1 c1
  norm_num at t1 c1
  obtain ⟨t2, c2, r2⟩ := stepFacts cfg channel
    (processMessageWithInfo cfg channel st0 m1 u bot false gen).2 m2 u bot false gen he2
  rw [hint, c1] at t2 c2
  norm_num at t2 c2
  obtain ⟨t3, c3, r3⟩ := stepFacts cfg channel
    (processMessageWithInfo cfg channel
      (processMessageWithInfo cfg channel st0 m1 u bot false gen).2
      m2 u bot false gen).2 m3 u bot false gen he3
  rw [hint, c2] at t3 c3
  norm_num at t3 c3
  obtain ⟨t4, c4, r4⟩ := stepFacts cfg channel
    (processMessageWithInfo cfg channel
      (processMessageWithInfo cfg channel
        (processMessageWithInfo cfg channel st0 m1 u bot false gen).2
        m2 u bot false gen).2 m3 u bot false gen).2 m4 u bot false gen he4
  rw [hint, c3] at t4 c4
  norm_num at t4 c4
  obtain ⟨t5, c5, r5⟩ := stepFacts cfg channel
    (processMessageWithInfo cfg channel
      (processMessageWithInfo cfg channel
        (processMessageWithInfo cfg channel
          (processMessageWithInfo cfg channel st0 m1 u bot false gen).2
          m2 u bot false gen).2 m3 u bot false gen).2 m4 u bot false gen).2
    m5 u bot false gen he5
  rw [hint, c4] at t5 c5
  norm_num at t5 c5
  exact ⟨t1, c1, t2, c2, t3, c3, t4, c4, t5, r5.trans c5, c5⟩

/-- C4 witness: the threshold scenario at a concrete configuration with
channel interval 5, counter 0, and five concrete eligible messages. -/
theorem counterThresholdFiveWitness :
    (Config.mk [] [] 5 35).getChannelMessageInterval = 5 ∧
    (BrainState.mk [] 0 "" 0).msgCounter = 0 ∧
    eligibleMessage (Config.mk [] [] 5 35) "chan" "one two three" "alice" "bot" = true ∧
    (let p1 := processMessageWithInfo (Config.mk [] [] 5 35) "chan"
       (BrainState.mk [] 0 "" 0) "one two three" "alice" "bot" false (fun _ _ => "ok then")
     let p2 := processMessageWithInfo (Config.mk [] [] 5 35) "chan" p1.2 "one two three"
       "alice" "bot" false (fun _ _ => "ok then")
     let p3 := processMessageWithInfo (Config.mk [] [] 5 35) "chan" p2.2 "one two three"
       "alice" "bot" false (fun _ _ => "ok then")
     let p4 := processMessageWithInfo (Config.mk [] [] 5 35) "chan" p3.2 "one two three"
       "alice" "bot" false (fun _ _ => "ok then")
     let p5 := processMessageWithInfo (Config.mk [] [] 5 35) "chan" p4.2 "one two three"
       "alice" "bot" false (fun _ _ => "ok then")
     p1.1.triggered = false ∧ p1.2.msgCounter = 1 ∧
     p2.1.triggered = false ∧ p2.2.msgCounter = 2 ∧
     p3.1.triggered = false ∧ p3.2.msgCounter = 3 ∧
     p4.1.triggered = false ∧ p4.2.msgCounter = 4 ∧
     p5.1.triggered = true ∧ p5.1.counter = 0 ∧ p5.2.msgCounter = 0) :=
  ⟨by decide, rfl, by decide,
    counterThresholdFive (Config.mk [] [] 5 35) "chan" "alice" "bot"
      (fun _ _ => "ok then") (BrainState.mk [] 0 "" 0)
      "one two three" "one two three" "one two three" "one two three" "one two three"
      (by decide) rfl (by decide) (by decide) (by decide) (by decide) (by decide)⟩

/-- C7: when an eligible message makes the counter reach the interval,
generation is triggered with at most 5 attempts; on success the response
is the first non-empty, non-blacklisted generator output, and it is
persisted as the last message; on failure all 5 attempts were used and
the failure reason is one of empty_generation, blacklisted_word,
unknown. -/
theorem generationPhaseRetries (cfg : Config) (channel : String) (st : BrainState)
    (message username bot : String) (hg : Bool) (gen : Nat → Nat → String)
    (he : eligibleMessage cfg channel message username bot = true)
    (ht : cfg.getChannelMessageInterval ≤ st.msgCounter + 1) :
    ((processMessageWithInfo cfg channel st message username bot hg gen).1.triggered = true) ∧
    ((processMessageWithInfo cfg channel st message username bot hg gen).1.attempts ≤ 5) ∧
    ((processMessageWithInfo cfg channel st message username bot hg gen).1.success = true →
      (processMessageWithInfo cfg channel st message username bot hg gen).1.response ≠ "" ∧
      containsBlacklistedWord cfg.blacklist
        (processMessageWithInfo cfg channel st message username bot hg gen).1.response = false ∧
      (processMessageWithInfo cfg channel st message username bot hg gen).2.lastMessage =
        (processMessageWithInfo cfg channel st message username bot hg gen).1.response ∧
      ∃ j, j < 5 ∧
        (processMessageWithInfo cfg channel st message username bot hg gen).1.response =
          gen j 20 ∧
        (processMessageWithInfo cfg channel st message username bot hg gen).1.attempts =
          j + 1 ∧
        ∀ l, l < j → gen l 20 = "" ∨
          containsBlacklistedWord cfg.blacklist (gen l 20) = true) ∧
    ((processMessageWithInfo cfg channel st message username bot hg gen).1.success = false →
      (processMessageWithInfo cfg channel st message username bot hg gen).1.attempts = 5 ∧
      ((processMessageWithInfo cfg channel st message username bot hg gen).1.failureReason =
         "empty_generation" ∨
       (processMessageWithInfo cfg channel st message username bot hg gen).1.failureReason =
         "blacklisted_word" ∨
       (processMessageWithInfo cfg channel st message username bot hg gen).1.failureReason =
         "unknown") ∧
      ∀ l, l < 5 → gen l 20 = "" ∨
        containsBlacklistedWord cfg.blacklist (gen l 20) = true) := by
  rw [processEligible cfg channel st message username bot hg gen he]
  obtain ⟨ha, hs, hf⟩ := tryGenSpec cfg.blacklist gen 5 0 "" (Or.inl rfl)
  unfold processCore
  simp only [ht, if_true]
  cases htry : (tryGen cfg.blacklist gen 0 5 "").1 with
  | true =>
    simp only [htry, if_true]
    obtain ⟨hne, hbl, j, hj1, hj2, hj3, hj4, hj5⟩ := hs htry
    refine ⟨by trivial, ?_, ?_, ?_⟩
    · show (tryGen cfg.blacklist gen 0 5 "").2.2.1 ≤ 5
      omega
    · intro _
      refine ⟨hne, hbl, by trivial, j, by omega, hj3, hj4,
        fun l hl => hj5 l (Nat.zero_le l) hl⟩
    · intro hcontr
      simp at hcontr
  | false =>
    simp only [htry, Bool.false_eq_true, if_false]
    obtain ⟨ha2, hr2, hall⟩ := hf htry
    refine ⟨by trivial, ?_, ?_, ?_⟩
    · show (tryGen cfg.blacklist gen 0 5 "").2.2.1 ≤ 5
      omega
    · intro hcontr
      simp at hcontr
    · intro _
      exact ⟨ha2, hr2, fun l hl => hall l (Nat.zero_le l) hl⟩

/-- C7 witness: a triggering step (interval 1) with a generator whose
first output is acceptable. -/
theorem generationPhaseRetriesWitness :
    eligibleMessage (Config.mk [] [] 1 35) "chan" "one two three" "alice" "bot" = true ∧
    (Config.mk [] [] 1 35).getChannelMessageInterval ≤ (BrainState.mk [] 0 "" 0).msgCounter + 1 ∧
    ((processMessageWithInfo (Config.mk [] [] 1 35) "chan" (BrainState.mk [] 0 "" 0)
        "one two three" "alice" "bot" false (fun _ _ => "ok then")).1.triggered = true) :=
  ⟨by decide, by decide,
    (generationPhaseRetries (Config.mk [] [] 1 35) "chan" (BrainState.mk [] 0 "" 0)
      "one two three" "alice" "bot" false (fun _ _ => "ok then")
      (by decide) (by decide)).1⟩

/-- C8: a message rejected by any of the seven admission conditions
(command prefix, sender is the bot, channel is the bot, blacklisted
user, link, non-English, blacklisted content) produces no side effects:
the state is returned unchanged and the result reports not-triggered
with all fields at their zero values. -/
theorem rejectedMessageNoEffects (cfg : Config) (channel : String) (st : BrainState)
    (message username bot : String) (hg : Bool) (gen : Nat → Nat → String)
    (h : goStartsWith message "!" = true ∨ goEqualFold username bot = true ∨
         goEqualFold channel bot = true ∨ cfg.isBlacklistedUser username = true ∨
         containsLink message = true ∨ isMostlyEnglish message = false ∨
         containsBlacklistedWord cfg.blacklist message = true) :
    processMessageWithInfo cfg channel st message username bot hg gen =
      ({ triggered := false, success := false, response := "", attempts := 0,
         failureReason := "", counter := 0, interval := 0, usingGlobal := false }, st) := by
  unfold processMessageWithInfo
  split
  · rfl
  · split
    · rfl
    · split
      · rfl
      · split
        · rfl
        · split
          · rfl
          · split
            · rfl
            · split
              · rfl
              · rcases h with h | h | h | h | h | h | h <;> simp_all

/-- C8 witness: a message from a blacklisted user is dropped with no
side effects. -/
theorem rejectedMessageNoEffectsWitness :
    ((Config.mk [] ["eve"] 5 35).isBlacklistedUser "Eve" = true) ∧
    processMessageWithInfo (Config.mk [] ["eve"] 5 35) "chan"
        (BrainState.mk [Row.mk "a" "b" "c" 1] 3 "prior" 7) "hello there you" "Eve" "bot"
        false (fun _ _ => "x y") =
      ({ triggered := false, success := false, response := "", attempts := 0,
         failureReason := "", counter := 0, interval := 0, usingGlobal := false },
       BrainState.mk [Row.mk "a" "b" "c" 1] 3 "prior" 7) :=
  ⟨by decide,
    rejectedMessageNoEffects (Config.mk [] ["eve"] 5 35) "chan"
      (BrainState.mk [Row.mk "a" "b" "c" 1] 3 "prior" 7) "hello there you" "Eve" "bot"
      false (fun _ _ => "x y")
      (Or.inr (Or.inr (Or.inr (Or.inl (by decide)))))⟩

end ENUF
